import Mathlib

/-!
# Verification of the `leis-municipais` HTML extraction pipeline

This file embeds `src/parser.rs` of the `mrcosta/leis-municipais` repository:
the Windows-1252 decoder step, the four anchored capture patterns
(`TITULO_REGEX`, `RESUMO_REGEX`, `TEXTO_REGEX`, `DOCUMENTO_REGEX`), the HTML
tag stripper `clean_html_to_text`, and the record assembler
`parse_html_to_lei`, and proves the specified properties about them.

Strings are modelled as `List Char`. The Rust `regex` crate patterns in the
source all have the shape `pre(?P<name>(.*))post` with literal `pre`/`post`
anchors: the crate uses leftmost-first matching with a greedy `.*` whose dot
does not match a newline, so `captures` finds the leftmost start position at
which `pre` is immediately followed by a newline-free stretch ending in
`post`, and the capture extends to the last such occurrence of `post`.
`grasp` and `findCapture` below implement exactly that semantics.
-/

set_option autoImplicit false

namespace LeisMunicipais

/-- Greedy capture of `(.*)post` anchored at the start of `r`: returns the
longest newline-free initial segment of `r` that is immediately followed by
the literal `post`, or `none` when no such segment exists. This models the
greedy `.*` of the Rust `regex` crate, whose `.` does not match `\n`. -/
def grasp (post : List Char) : List Char → Option (List Char)
  | [] => if post.isPrefixOf ([] : List Char) then some [] else none
  | c :: rest =>
    match (if c = '\n' then none else (grasp post rest).map (c :: ·)) with
    | some cap => some cap
    | none => if post.isPrefixOf (c :: rest) then some [] else none

/-- Leftmost-first search for `pre(.*)post` over `s`: scan start positions
left to right; at the first position where the literal `pre` matches and a
greedy capture for `(.*)post` exists, return that capture. Models
`Regex::captures` for the patterns used in `parser.rs`. -/
def findCapture (pre post : List Char) : List Char → Option (List Char)
  | [] => if pre.isPrefixOf ([] : List Char) then grasp post [] else none
  | c :: rest =>
    match (if pre.isPrefixOf (c :: rest) then grasp post ((c :: rest).drop pre.length) else none) with
    | some cap => some cap
    | none => findCapture pre post rest

/-- `occursAt pat s i` holds when the literal `pat` occurs in `s` starting at
index `i`. -/
def occursAt (pat s : List Char) (i : Nat) : Bool :=
  pat.isPrefixOf (s.drop i)

/-- An anchored capture pattern `pre(?P<name>(.*))post`, as used by the four
`lazy_static` regexes of `parser.rs`. -/
structure CaptureRegex where
  pre : List Char
  post : List Char
deriving Repr, DecidableEq

/-- Run the pattern over a decoded document, Rust `Regex::captures` returning
the named capture group. -/
def CaptureRegex.captures (re : CaptureRegex) (s : List Char) : Option (List Char) :=
  findCapture re.pre re.post s

/-- Rust: `Regex::new("<h2>(?P<titulo>(.*))</h2>")`. -/
def TITULO_REGEX : CaptureRegex :=
  { pre := "<h2>".toList, post := "</h2>".toList }

/-- Rust: `Regex::new("</h2><br>(?P<resumo>(.*))<br><br><img")`. -/
def RESUMO_REGEX : CaptureRegex :=
  { pre := "</h2><br>".toList, post := "<br><br><img".toList }

/-- Rust: `Regex::new("><br><br><br>(?P<texto>(.*))<p><img")`. -/
def TEXTO_REGEX : CaptureRegex :=
  { pre := "><br><br><br>".toList, post := "<p><img".toList }

/-- Rust: `Regex::new("btn-default\" href=\"(?P<documento>(.*))\" title")`. -/
def DOCUMENTO_REGEX : CaptureRegex :=
  { pre := "btn-default\" href=\"".toList, post := "\" title".toList }

/-! ## Text cleaner

`clean_html_to_text` delegates to `html_sanitizer::TagParser::walk`, rewriting
every `br` tag to `"\n"` and calling `ignore_self()` on every other tag.

Modelled from the spec: the `html_sanitizer` crate is an external dependency
whose source is not part of this repository; per spec section 4.3 the walk
processes the fragment in document order, replaces each tag whose name is the
line-break name `br` (regardless of attributes) by a single newline, strips
the markup of every other tag while keeping nested text content, and handles
malformed markup without crashing (an unterminated tag consumes the rest of
the fragment). The walk is modelled as the mutual tokenizer
`cleanText`/`cleanName`/`cleanSkip`: `cleanText` copies text characters,
`cleanName` accumulates a tag name after `<` up to a delimiter (space, slash
or `>`), and `cleanSkip` skips attributes until the closing `>`, emitting the
pending newline for a `br` tag once the tag is terminated. -/

/-- Characters that terminate a tag name: space, `/` (self-closing or end of
name) and `>` (end of tag). -/
def notStop (c : Char) : Bool :=
  !(c = ' ' || c = '>' || c = '/')

/-- Output for one completed tag: a newline for a `br` tag, nothing for any
other tag. -/
def emitFor (acc : List Char) : List Char :=
  if acc = "br".toList then ['\n'] else []

mutual

/-- Copy text characters; on `<`, start reading a tag name. -/
def cleanText : List Char → List Char
  | [] => []
  | c :: rest =>
    if c = '<' then cleanName [] rest
    else c :: cleanText rest

/-- Read the tag name after `<`; on the closing `>`, emit the tag's output;
on another delimiter, skip the attributes. An unterminated tag emits
nothing. -/
def cleanName (acc : List Char) : List Char → List Char
  | [] => []
  | c :: rest =>
    if c = '>' then emitFor acc ++ cleanText rest
    else if notStop c then cleanName (acc ++ [c]) rest
    else cleanSkip (emitFor acc) rest

/-- Skip attribute characters until the closing `>`, then emit the pending
output. An unterminated tag emits nothing. -/
def cleanSkip (pending : List Char) : List Char → List Char
  | [] => []
  | c :: rest =>
    if c = '>' then pending ++ cleanText rest
    else cleanSkip pending rest

end

/-- Rust `clean_html_to_text`: strip tags keeping text, `br` tags become
newlines. -/
def clean_html_to_text (capture : List Char) : List Char :=
  cleanText capture

/-! ## Decoder

`parse_html_to_lei` reads the file through
`DecodeReaderBytesBuilder::new().encoding(Some(WINDOWS_1252))`, which decodes
each byte by the WHATWG windows-1252 single-byte table. -/

/-- The WHATWG windows-1252 mapping for bytes `0x80`-`0x9F`; every other byte
maps to the code point equal to its value. -/
def windows1252HighTable : List Nat :=
  [0x20AC, 0x81, 0x201A, 0x0192, 0x201E, 0x2026, 0x2020, 0x2021,
   0x02C6, 0x2030, 0x0160, 0x2039, 0x0152, 0x8D, 0x017D, 0x8F,
   0x90, 0x2018, 0x2019, 0x201C, 0x201D, 0x2022, 0x2013, 0x2014,
   0x02DC, 0x2122, 0x0161, 0x203A, 0x0153, 0x9D, 0x017E, 0x0178]

/-- Decode one byte value `v < 256`; `none` would mean a byte left unmapped
by the table (the theorems show there is none). -/
def decodeByteV (v : Nat) : Option Char :=
  if v < 0x80 then some (Char.ofNat v)
  else if v < 0xA0 then (windows1252HighTable.get? (v - 0x80)).map Char.ofNat
  else some (Char.ofNat v)

/-- Decode one byte (reduced modulo 256) by the windows-1252 table. -/
def decodeByte (b : Nat) : Option Char :=
  decodeByteV (b % 256)

/-- Decode a whole byte stream; fails if any single byte fails to decode. -/
def decodeWindows1252 : List Nat → Option (List Char)
  | [] => some []
  | b :: rest =>
    match decodeByte b, decodeWindows1252 rest with
    | some c, some cs => some (c :: cs)
    | _, _ => none

/-! ## Error type, I/O model and outcome -/

/-- Modelled from the spec: the crate-level error type `crate::error::Error`
(module `src/error.rs`, not part of the given sources) with its
`ok_or_unexpected(campo, file_name)` constructor. Per the spec's failure
taxonomy and the inline tests' expected `Display` output, each mandatory
field has its own failure kind named after the field and carrying the
originating file identifier, displayed as
`"{campo} não encontrado no arquivo {file_name}"`. -/
inductive Error where
  | capturedNotFound (campo : List Char) (file_name : List Char)
deriving Repr, DecidableEq

/-- Modelled from the spec: the `Display` rendering of `crate::error::Error`,
as pinned down by the inline tests of `parser.rs`. -/
def Error.message : Error → List Char
  | .capturedNotFound campo file_name =>
    campo ++ " não encontrado no arquivo ".toList ++ file_name

/-- Rust `ok_or_unexpected` from `CapturedOkOrUnexpected`: turn a missing
capture into the field's named error. -/
def ok_or_unexpected {α : Type} (o : Option α) (campo file_name : List Char) :
    Except Error α :=
  match o with
  | some a => .ok a
  | none => .error (.capturedNotFound campo file_name)

/-- The two ways the underlying byte stream can fail: `File::open` failing,
or the read from the decoding reader failing. -/
inductive IOErr where
  | openErr
  | readErr
deriving Repr, DecidableEq

/-- Outcome of running a Rust function that may return `Ok`, return `Err`,
or panic (`expect`/`unwrap`). -/
inductive RustOutcome (α : Type) where
  | ok : α → RustOutcome α
  | err : Error → RustOutcome α
  | panic : List Char → RustOutcome α
deriving Repr, DecidableEq

/-- Panic message of the `expect` on `File::open`. -/
def openMsg : List Char :=
  "Arquivo que estava na pasta não foi encontrado".toList

/-- Panic message of the `expect` on `read_to_string`. -/
def readMsg : List Char :=
  "O conteúdo do arquivo não é UTF-8 válido".toList

/-- Panic message for each kind of I/O failure, per the two `expect` calls. -/
def ioPanicMsg : IOErr → List Char
  | .openErr => openMsg
  | .readErr => readMsg

/-- The output record `Lei` of `parser.rs`. -/
structure Lei where
  titulo : List Char
  categoria : List Char
  resumo : List Char
  texto : List Char
  documento : Option (List Char)
deriving Repr, DecidableEq

/-- The pattern-matching and assembly part of `parse_html_to_lei`
(lines 38-58 of `parser.rs`), operating on the decoded document `dest`:
check the title, then the summary, then the body, returning the first
missing field's error; finally look up the optional document link and build
the record from the cleaned captures. -/
def parse_decoded (dest file_name categoria : List Char) : RustOutcome Lei :=
  match TITULO_REGEX.captures dest with
  | none => .err (.capturedNotFound "Título".toList file_name)
  | some captures_titulo =>
    match RESUMO_REGEX.captures dest with
    | none => .err (.capturedNotFound "Resumo".toList file_name)
    | some captures_resumo =>
      match TEXTO_REGEX.captures dest with
      | none => .err (.capturedNotFound "Texto".toList file_name)
      | some captures_texto =>
        let documento := DOCUMENTO_REGEX.captures dest
        .ok { titulo := clean_html_to_text captures_titulo,
              categoria := categoria,
              resumo := clean_html_to_text captures_resumo,
              texto := clean_html_to_text captures_texto,
              documento := documento }

/-- Rust `parse_html_to_lei`. The input byte stream is modelled as
`Except IOErr (List Nat)`: an I/O failure at open or at read, or the raw
bytes read. `File::open(..).expect(..)` and `read_to_string(..).expect(..)`
panic on failure; `read_to_string` also fails (with the same panic) if the
decoder were to produce non-UTF-8 output, modelled by the `none` branch of
`decodeWindows1252`. -/
def parse_html_to_lei (input : Except IOErr (List Nat))
    (file_name categoria : List Char) : RustOutcome Lei :=
  match input with
  | .error e => .panic (ioPanicMsg e)
  | .ok bytes =>
    match decodeWindows1252 bytes with
    | none => .panic readMsg
    | some dest => parse_decoded dest file_name categoria

/-- Byte stream of an ASCII document: each character as its code point. -/
def asciiBytes (s : String) : List Nat :=
  s.toList.map Char.toNat

/-! ## HTML fragments, for specifying the cleaner

`Frag` is the shape of well-formed markup the spec's Text Cleaner contract
talks about: text runs, line-break tags with arbitrary attributes, and
arbitrary other tags with attributes and nested content, in document order.
`renderFrag` produces the concrete character stream; `cleanSpecFrag` is the
cleaning result the spec prescribes (its words, not the code): a line-break
tag becomes exactly one newline, any other tag disappears keeping its nested
text, text is kept, left to right. -/

/-- Well-formed markup fragments: text, a `br` tag with attributes, some
other tag with attributes enclosing nested content, and sequencing. -/
inductive Frag where
  | text : List Char → Frag
  | br : List Char → Frag
  | tag : List Char → List Char → Frag → Frag
  | seq : Frag → Frag → Frag
deriving Repr

/-- The character stream a fragment denotes. -/
def renderFrag : Frag → List Char
  | .text s => s
  | .br attrs => '<' :: ("br".toList ++ attrs ++ ['>'])
  | .tag name attrs child =>
    ('<' :: (name ++ attrs ++ ['>'])) ++ renderFrag child
      ++ ('<' :: '/' :: (name ++ ['>']))
  | .seq a b => renderFrag a ++ renderFrag b

/-- Cleaning as the spec words it: keep text, a line-break tag becomes one
newline, any other tag is dropped keeping its nested content, in document
order. -/
def cleanSpecFrag : Frag → List Char
  | .text s => s
  | .br _attrs => ['\n']
  | .tag _name _attrs child => cleanSpecFrag child
  | .seq a b => cleanSpecFrag a ++ cleanSpecFrag b

/-- Well-formedness of a fragment: text carries no `<`; tag names and
attribute lists carry no `>`; a `br` tag's attributes start with a name
delimiter (or are empty) so the tag's name really is `br`; another tag's
name as scanned up to the first delimiter is not `br`. -/
def wfFrag : Frag → Prop
  | .text s => '<' ∉ s
  | .br attrs => '>' ∉ attrs ∧ attrs.takeWhile notStop = []
  | .tag name attrs child =>
    '>' ∉ name ∧ '>' ∉ attrs ∧ (name ++ attrs).takeWhile notStop ≠ "br".toList
      ∧ wfFrag child
  | .seq a b => wfFrag a ∧ wfFrag b

instance wfFragDecidable : (f : Frag) → Decidable (wfFrag f)
  | .text s => inferInstanceAs (Decidable ('<' ∉ s))
  | .br _attrs => inferInstanceAs (Decidable (_ ∧ _))
  | .tag _name _attrs child =>
    have := wfFragDecidable child
    inferInstanceAs (Decidable (_ ∧ _ ∧ _ ∧ _))
  | .seq a b =>
    have := wfFragDecidable a
    have := wfFragDecidable b
    inferInstanceAs (Decidable (_ ∧ _))

/-! ## Helper lemmas: the capture search -/

theorem isPrefixOf_length_le (p l : List Char) (h : p.isPrefixOf l = true) :
    p.length ≤ l.length := by
  rw [List.isPrefixOf_iff_prefix] at h
  obtain ⟨t, rfl⟩ := h
  simp

theorem isPrefixOf_append_self (p r : List Char) : p.isPrefixOf (p ++ r) = true := by
  rw [List.isPrefixOf_iff_prefix]
  exact List.prefix_append p r

theorem isPrefixOf_self (p : List Char) : p.isPrefixOf p = true := by
  rw [List.isPrefixOf_iff_prefix]

theorem grasp_short (post : List Char) (hpost : post ≠ []) :
    ∀ r : List Char, r.length < post.length → grasp post r = none := by
  intro r
  induction r with
  | nil =>
    intro _
    simp only [grasp]
    cases post with
    | nil => exact absurd rfl hpost
    | cons p ps => simp [List.isPrefixOf]
  | cons c rest ih =>
    intro hlen
    have h1 : grasp post rest = none := by
      apply ih
      simp only [List.length_cons] at hlen
      omega
    have h2 : post.isPrefixOf (c :: rest) = false := by
      cases hp : post.isPrefixOf (c :: rest)
      · rfl
      · exfalso
        have := isPrefixOf_length_le post (c :: rest) hp
        omega
    simp [grasp, h1, h2]

theorem grasp_last (post : List Char) (hpost : post ≠ []) :
    ∀ x : List Char, '\n' ∉ x → grasp post (x ++ post) = some x := by
  intro x
  induction x with
  | nil =>
    intro _
    simp only [List.nil_append]
    cases hp : post with
    | nil => exact absurd hp hpost
    | cons p ps =>
      have hshort : grasp (p :: ps) ps = none := by
        apply grasp_short (p :: ps) (by simp)
        simp
      simp [grasp, hshort, isPrefixOf_self]
  | cons c x' ih =>
    intro hn
    have hc : ¬ c = '\n' := fun h => hn (by simp [h])
    have hx' : '\n' ∉ x' := fun h => hn (List.mem_cons_of_mem c h)
    have hih : grasp post (x' ++ post) = some x' := ih hx'
    simp [List.cons_append, grasp, hih, hc]

theorem grasp_none (post : List Char) :
    ∀ r : List Char, (∀ k, occursAt post r k = true → '\n' ∈ r.take k) →
      grasp post r = none := by
  intro r
  induction r with
  | nil =>
    intro h
    simp only [grasp]
    cases hp : post.isPrefixOf ([] : List Char)
    · simp
    · exfalso
      have := h 0 (by simpa [occursAt] using hp)
      simp at this
  | cons c rest ih =>
    intro h
    have hfb : post.isPrefixOf (c :: rest) = false := by
      cases hp : post.isPrefixOf (c :: rest)
      · rfl
      · exfalso
        have := h 0 (by simpa [occursAt] using hp)
        simp at this
    by_cases hc : c = '\n'
    · subst hc
      simp [grasp, hfb]
    · have hrest : grasp post rest = none := by
        apply ih
        intro k hk
        have hocc : occursAt post (c :: rest) (k + 1) = true := by
          simpa [occursAt] using hk
        have := h (k + 1) hocc
        simp only [List.take_succ_cons, List.mem_cons] at this
        rcases this with h1 | h2
        · exact absurd h1.symm hc
        · exact h2
      simp [grasp, hc, hrest, hfb]

theorem grasp_last_tail (post : List Char) (hpost : post ≠ []) :
    ∀ x v : List Char, '\n' ∉ x →
      (∀ k, occursAt post (x ++ post ++ v) k = true → k ≤ x.length) →
      grasp post (x ++ post ++ v) = some x := by
  intro x
  induction x with
  | nil =>
    intro v _ hlast
    simp only [List.nil_append] at hlast ⊢
    cases hp : post with
    | nil => exact absurd hp hpost
    | cons p ps =>
      subst hp
      have hinner : grasp (p :: ps) (ps ++ v) = none := by
        apply grasp_none
        intro k hk
        exfalso
        have hocc : occursAt (p :: ps) ((p :: ps) ++ v) (k + 1) = true := by
          simpa [occursAt, List.cons_append, List.drop_succ_cons] using hk
        have := hlast (k + 1) hocc
        simp only [List.length_nil] at this
        omega
      have hpf : (p :: ps).isPrefixOf ((p :: ps) ++ v) = true :=
        isPrefixOf_append_self _ _
      simp [grasp, List.cons_append, hinner, hpf]
  | cons c x' ih =>
    intro v hn hlast
    have hc : ¬ c = '\n' := fun h => hn (by simp [h])
    have hx' : '\n' ∉ x' := fun h => hn (List.mem_cons_of_mem c h)
    have hih : grasp post (x' ++ post ++ v) = some x' := by
      apply ih v hx'
      intro k hk
      have hocc : occursAt post ((c :: x') ++ post ++ v) (k + 1) = true := by
        simpa [occursAt, List.cons_append, List.drop_succ_cons] using hk
      have := hlast (k + 1) hocc
      simp only [List.length_cons] at this ⊢
      omega
    have hih2 : grasp post (x' ++ (post ++ v)) = some x' := by
      simpa [List.append_assoc] using hih
    simp [List.cons_append, grasp, hih2, hc]

theorem findCapture_start (pre post : List Char) (r cap : List Char)
    (h : grasp post r = some cap) :
    findCapture pre post (pre ++ r) = some cap := by
  cases hs : pre ++ r with
  | nil =>
    have hpre : pre = [] := by
      cases pre
      · rfl
      · simp at hs
    subst hpre
    have hr : r = [] := by simpa using hs
    subst hr
    simpa [findCapture, List.isPrefixOf] using h
  | cons c rest =>
    rw [← hs]
    have hnil : pre ++ r ≠ [] := by simp [hs]
    cases hpr : pre ++ r with
    | nil => exact absurd hpr hnil
    | cons d rest' =>
      rw [← hpr]
      conv_lhs => rw [hpr]
      simp only [findCapture, ← hpr, isPrefixOf_append_self, if_true, List.drop_left]
      rw [h]

theorem findCapture_skip (pre post : List Char) :
    ∀ (u v : List Char), (∀ i, i < u.length → occursAt pre (u ++ v) i = false) →
      findCapture pre post (u ++ v) = findCapture pre post v := by
  intro u
  induction u with
  | nil => intro v _; rfl
  | cons c u' ih =>
    intro v h
    have h0 : pre.isPrefixOf (c :: (u' ++ v)) = false := by
      have := h 0 (by simp)
      simpa [occursAt] using this
    simp only [List.cons_append, findCapture, List.append_eq, h0, Bool.false_eq_true, if_false]
    apply ih v
    intro i hi
    have h2 := h (i + 1) (by simp only [List.length_cons]; omega)
    simpa [occursAt] using h2

theorem findCapture_none (pre post : List Char) :
    ∀ s : List Char,
      (∀ i, occursAt pre s i = true → grasp post (s.drop (i + pre.length)) = none) →
      findCapture pre post s = none := by
  intro s
  induction s with
  | nil =>
    intro h
    simp only [findCapture]
    cases hp : pre.isPrefixOf ([] : List Char)
    · simp
    · have := h 0 (by simpa [occursAt] using hp)
      simpa using this
  | cons c rest ih =>
    intro h
    have htail : findCapture pre post rest = none := by
      apply ih
      intro i hi
      have hocc : occursAt pre (c :: rest) (i + 1) = true := by
        simpa [occursAt] using hi
      have := h (i + 1) hocc
      simpa [Nat.add_right_comm i 1 pre.length] using this
    cases hp : pre.isPrefixOf (c :: rest)
    · simp [findCapture, hp, htail]
    · have h0 := h 0 (by simpa [occursAt] using hp)
      simp only [Nat.zero_add] at h0
      simp [findCapture, hp, h0, htail]

theorem grasp_no_newline (post : List Char) :
    ∀ (r cap : List Char), grasp post r = some cap → '\n' ∉ cap := by
  intro r
  induction r with
  | nil =>
    intro cap h
    simp only [grasp] at h
    by_cases hp : post.isPrefixOf ([] : List Char) = true
    · simp [hp] at h
      subst h
      simp
    · simp [hp] at h
  | cons c rest ih =>
    intro cap h
    by_cases hc : c = '\n'
    · simp only [grasp, hc, if_true, if_pos] at h
      by_cases hp : post.isPrefixOf ('\n' :: rest) = true
      · simp [hp] at h
        subst h
        simp
      · simp [hp] at h
    · cases hg : grasp post rest with
      | some cap' =>
        simp only [grasp, hg, hc, if_false, Option.map_some'] at h
        rcases h with h
        cases h
        intro hmem
        rcases List.mem_cons.mp hmem with h1 | h2
        · exact hc h1.symm
        · exact ih cap' hg h2
      | none =>
        simp only [grasp, hg, hc, if_false, Option.map_none'] at h
        by_cases hp : post.isPrefixOf (c :: rest) = true
        · simp [hp] at h
          subst h
          simp
        · simp [hp] at h

theorem findCapture_no_newline (pre post : List Char) :
    ∀ (s cap : List Char), findCapture pre post s = some cap → '\n' ∉ cap := by
  intro s
  induction s with
  | nil =>
    intro cap h
    simp only [findCapture] at h
    by_cases hp : pre.isPrefixOf ([] : List Char) = true
    · simp only [hp, if_true] at h
      exact grasp_no_newline post [] cap h
    · simp [hp] at h
  | cons c rest ih =>
    intro cap h
    by_cases hp : pre.isPrefixOf (c :: rest) = true
    · cases hg : grasp post ((c :: rest).drop pre.length) with
      | some cap' =>
        simp only [findCapture, hp, if_true, hg] at h
        cases h
        exact grasp_no_newline post _ cap hg
      | none =>
        simp only [findCapture, hp, if_true, hg] at h
        exact ih cap h
    · simp only [findCapture, hp] at h
      simp only [Bool.false_eq_true, if_false] at h
      exact ih cap h

theorem occursAt_shift (pat a r : List Char) (k : Nat) :
    occursAt pat (a ++ r) (a.length + k) = occursAt pat r k := by
  simp [occursAt, List.drop_append]

/-! ## Helper lemmas: the cleaner -/

theorem takeWhile_append_all (p : Char → Bool) :
    ∀ (xs ys : List Char), (∀ c ∈ xs, p c = true) →
      (xs ++ ys).takeWhile p = xs ++ ys.takeWhile p := by
  intro xs ys
  induction xs with
  | nil => intro _; simp
  | cons a as ih =>
    intro h
    have ha : p a = true := h a (by simp)
    simp only [List.cons_append, List.takeWhile_cons, ha, if_true]
    rw [ih (fun c hc => h c (by simp [hc]))]

theorem cleanText_copy :
    ∀ (s t : List Char), '<' ∉ s → cleanText (s ++ t) = s ++ cleanText t := by
  intro s t
  induction s with
  | nil => intro _; simp
  | cons c rest ih =>
    intro h
    have hc : ¬ c = '<' := fun hh => h (by simp [hh])
    have hrest : '<' ∉ rest := fun hh => h (List.mem_cons_of_mem c hh)
    simp only [List.cons_append, cleanText, List.append_eq, hc, if_false]
    rw [ih hrest]

theorem cleanSkip_over (pending : List Char) :
    ∀ (xs t : List Char), '>' ∉ xs →
      cleanSkip pending (xs ++ '>' :: t) = pending ++ cleanText t := by
  intro xs t
  induction xs with
  | nil => intro _; simp [cleanSkip]
  | cons c rest ih =>
    intro h
    have hc : ¬ c = '>' := fun hh => h (by simp [hh])
    have hrest : '>' ∉ rest := fun hh => h (List.mem_cons_of_mem c hh)
    simp only [List.cons_append, cleanSkip, hc, if_false]
    exact ih hrest

theorem cleanName_over :
    ∀ (zs acc t : List Char), '>' ∉ zs →
      cleanName acc (zs ++ '>' :: t)
        = emitFor (acc ++ zs.takeWhile notStop) ++ cleanText t := by
  intro zs
  induction zs with
  | nil =>
    intro acc t _
    simp [cleanName]
  | cons c rest ih =>
    intro acc t h
    have hc : ¬ c = '>' := fun hh => h (by simp [hh])
    have hrest : '>' ∉ rest := fun hh => h (List.mem_cons_of_mem c hh)
    by_cases hstop : notStop c = true
    · simp only [List.cons_append, cleanName, List.append_eq, hc, if_false, hstop, if_true]
      rw [ih (acc ++ [c]) t hrest]
      simp [List.takeWhile_cons, hstop]
    · have hnot : notStop c = false := by
        cases hh : notStop c
        · rfl
        · exact absurd hh hstop
      simp only [List.cons_append, cleanName, List.append_eq, hc, if_false, hnot,
        Bool.false_eq_true]
      rw [cleanSkip_over (emitFor acc) rest t hrest]
      simp [List.takeWhile_cons, hnot]

theorem cleanText_render :
    ∀ f : Frag, wfFrag f → ∀ t : List Char,
      cleanText (renderFrag f ++ t) = cleanSpecFrag f ++ cleanText t := by
  intro f
  induction f with
  | text s =>
    intro hwf t
    exact cleanText_copy s t hwf
  | br attrs =>
    intro hwf t
    obtain ⟨hgt, htk⟩ := hwf
    have hzs : '>' ∉ "br".toList ++ attrs := by
      intro hmem
      rcases List.mem_append.mp hmem with h1 | h2
      · simp at h1
      · exact hgt h2
    have hlayout :
        renderFrag (.br attrs) ++ t = '<' :: (("br".toList ++ attrs) ++ '>' :: t) := by
      simp [renderFrag]
    rw [hlayout]
    simp only [cleanText, if_pos rfl]
    rw [cleanName_over ("br".toList ++ attrs) [] t hzs]
    rw [takeWhile_append_all notStop "br".toList attrs (by decide)]
    simp [emitFor, htk, cleanSpecFrag]
  | tag name attrs child ih =>
    intro hwf t
    obtain ⟨hgtn, hgta, hname, hchild⟩ := hwf
    have hzs : '>' ∉ name ++ attrs := by
      intro hmem
      rcases List.mem_append.mp hmem with h1 | h2
      · exact hgtn h1
      · exact hgta h2
    have hzs2 : '>' ∉ '/' :: name := by
      intro hmem
      rcases List.mem_cons.mp hmem with h1 | h2
      · simp at h1
      · exact hgtn h2
    have hlayout : renderFrag (.tag name attrs child) ++ t
        = '<' :: ((name ++ attrs) ++ '>' ::
            (renderFrag child ++ ('<' :: (('/' :: name) ++ '>' :: t)))) := by
      simp [renderFrag]
    rw [hlayout]
    simp only [cleanText, if_pos rfl]
    rw [cleanName_over (name ++ attrs) [] _ hzs]
    have hemit1 : emitFor ([] ++ (name ++ attrs).takeWhile notStop) = [] := by
      simp only [List.nil_append, emitFor]
      rw [if_neg hname]
    rw [hemit1, List.nil_append]
    rw [ih hchild ('<' :: (('/' :: name) ++ '>' :: t))]
    simp only [cleanText, if_pos rfl]
    rw [cleanName_over ('/' :: name) [] t hzs2]
    have hemit2 : emitFor ([] ++ ('/' :: name).takeWhile notStop) = [] := by
      simp [List.takeWhile_cons, notStop, emitFor]
    rw [hemit2]
    simp [cleanSpecFrag]
  | seq a b iha ihb =>
    intro hwf t
    obtain ⟨hwa, hwb⟩ := hwf
    have hlayout : renderFrag (.seq a b) ++ t = renderFrag a ++ (renderFrag b ++ t) := by
      simp [renderFrag]
    rw [hlayout, iha hwa, ihb hwb]
    simp [cleanSpecFrag]

theorem clean_no_lt :
    ∀ s : List Char, ('<' ∉ cleanText s)
      ∧ (∀ acc, '<' ∉ cleanName acc s)
      ∧ (∀ p, '<' ∉ p → '<' ∉ cleanSkip p s) := by
  intro s
  induction s with
  | nil =>
    refine ⟨by simp [cleanText], fun acc => by simp [cleanName], fun p _ => by simp [cleanSkip]⟩
  | cons c rest ih =>
    obtain ⟨ihT, ihN, ihS⟩ := ih
    refine ⟨?_, ?_, ?_⟩
    · by_cases hc : c = '<'
      · simp only [cleanText, hc, if_pos rfl]
        exact ihN []
      · simp only [cleanText, hc, if_false]
        intro hmem
        rcases List.mem_cons.mp hmem with h1 | h2
        · exact hc h1.symm
        · exact ihT h2
    · intro acc
      have hemit : '<' ∉ emitFor acc := by
        simp only [emitFor]
        by_cases ha : acc = "br".toList
        · simp [ha]
        · simp [ha]
      by_cases hc : c = '>'
      · simp only [cleanName, hc, if_pos rfl]
        intro hmem
        rcases List.mem_append.mp hmem with h1 | h2
        · exact hemit h1
        · exact ihT h2
      · by_cases hstop : notStop c = true
        · simp only [cleanName, hc, if_false, hstop, if_true]
          exact ihN (acc ++ [c])
        · have hnot : notStop c = false := by
            cases hh : notStop c
            · rfl
            · exact absurd hh hstop
          simp only [cleanName, hc, if_false, hnot, Bool.false_eq_true]
          exact ihS (emitFor acc) hemit
    · intro p hp
      by_cases hc : c = '>'
      · simp only [cleanSkip, hc, if_pos rfl]
        intro hmem
        rcases List.mem_append.mp hmem with h1 | h2
        · exact hp h1
        · exact ihT h2
      · simp only [cleanSkip, hc, if_false]
        exact ihS p hp

theorem cleanText_id (s : List Char) (h : '<' ∉ s) : cleanText s = s := by
  have := cleanText_copy s [] h
  simpa [cleanText] using this


/-! ## Helper lemmas: decoder and assembler -/

set_option maxRecDepth 4096 in
theorem decodeByteV_total (v : Nat) (h : v < 256) : (decodeByteV v).isSome = true := by
  have : ∀ w : Fin 256, (decodeByteV w.val).isSome = true := by decide
  exact this ⟨v, h⟩

theorem decodeByte_total (b : Nat) : (decodeByte b).isSome = true :=
  decodeByteV_total (b % 256) (Nat.mod_lt b (by norm_num))

theorem decodeWindows1252_total : ∀ bs : List Nat, (decodeWindows1252 bs).isSome = true := by
  intro bs
  induction bs with
  | nil => simp [decodeWindows1252]
  | cons b rest ih =>
    have hb := decodeByte_total b
    cases hdb : decodeByte b with
    | none => rw [hdb] at hb; simp at hb
    | some c =>
      cases hdr : decodeWindows1252 rest with
      | none => rw [hdr] at ih; simp at ih
      | some cs => simp [decodeWindows1252, hdb, hdr]

theorem parse_decoded_no_panic (dest fn cat m : List Char) :
    parse_decoded dest fn cat ≠ RustOutcome.panic m := by
  unfold parse_decoded
  cases TITULO_REGEX.captures dest <;>
    cases RESUMO_REGEX.captures dest <;>
    cases TEXTO_REGEX.captures dest <;>
    simp

theorem parse_html_delegates (bytes : List Nat) (dest fn cat : List Char)
    (hdec : decodeWindows1252 bytes = some dest) :
    parse_html_to_lei (Except.ok bytes) fn cat = parse_decoded dest fn cat := by
  simp [parse_html_to_lei, hdec]

theorem parse_decoded_err_titulo (dest fn cat : List Char)
    (h : TITULO_REGEX.captures dest = none) :
    parse_decoded dest fn cat = RustOutcome.err (.capturedNotFound "Título".toList fn) := by
  unfold parse_decoded
  rw [h]

theorem parse_decoded_err_resumo (dest fn cat t : List Char)
    (ht : TITULO_REGEX.captures dest = some t)
    (h : RESUMO_REGEX.captures dest = none) :
    parse_decoded dest fn cat = RustOutcome.err (.capturedNotFound "Resumo".toList fn) := by
  unfold parse_decoded
  rw [ht, h]

theorem parse_decoded_err_texto (dest fn cat t r : List Char)
    (ht : TITULO_REGEX.captures dest = some t)
    (hr : RESUMO_REGEX.captures dest = some r)
    (h : TEXTO_REGEX.captures dest = none) :
    parse_decoded dest fn cat = RustOutcome.err (.capturedNotFound "Texto".toList fn) := by
  unfold parse_decoded
  rw [ht, hr, h]

theorem parse_decoded_ok_eq (dest fn cat t r x : List Char)
    (ht : TITULO_REGEX.captures dest = some t)
    (hr : RESUMO_REGEX.captures dest = some r)
    (hx : TEXTO_REGEX.captures dest = some x) :
    parse_decoded dest fn cat = RustOutcome.ok
      { titulo := clean_html_to_text t, categoria := cat,
        resumo := clean_html_to_text r, texto := clean_html_to_text x,
        documento := DOCUMENTO_REGEX.captures dest } := by
  unfold parse_decoded
  rw [ht, hr, hx]

/-! ## Helper lemmas: composed capture facts -/

theorem occursAt_lt_length (pat s : List Char) (i : Nat)
    (hpat : pat ≠ []) (h : occursAt pat s i = true) : i < s.length := by
  unfold occursAt at h
  have hlen := isPrefixOf_length_le pat (s.drop i) h
  rw [List.length_drop] at hlen
  cases pat with
  | nil => exact absurd rfl hpat
  | cons a as =>
    simp only [List.length_cons] at hlen
    omega

theorem captures_last (re : CaptureRegex) (u x y v : List Char)
    (hpost : re.post ≠ []) (hx : '\n' ∉ x) (hy : '\n' ∉ y) (hp : '\n' ∉ re.post)
    (hu : ∀ i, i < u.length →
      occursAt re.pre (u ++ (re.pre ++ (x ++ re.post ++ y ++ re.post ++ v))) i = false)
    (hlast : ∀ k, k < (x ++ re.post ++ y ++ re.post ++ v).length →
      occursAt re.post (x ++ re.post ++ y ++ re.post ++ v) k = true →
      k ≤ (x ++ re.post ++ y).length) :
    re.captures (u ++ (re.pre ++ (x ++ re.post ++ y ++ re.post ++ v)))
      = some (x ++ re.post ++ y) := by
  unfold CaptureRegex.captures
  rw [findCapture_skip re.pre re.post u _ (fun i hi => hu i hi)]
  apply findCapture_start
  have hmid : '\n' ∉ x ++ re.post ++ y := by
    intro hmem
    rcases List.mem_append.mp hmem with h1 | h2
    · rcases List.mem_append.mp h1 with h3 | h4
      · exact hx h3
      · exact hp h4
    · exact hy h2
  have hlast' : ∀ k, occursAt re.post ((x ++ re.post ++ y) ++ re.post ++ v) k = true →
      k ≤ (x ++ re.post ++ y).length := by
    intro k hk
    have hklt := occursAt_lt_length re.post _ k hpost hk
    exact hlast k hklt hk
  exact grasp_last_tail re.post hpost (x ++ re.post ++ y) v hmid hlast'

theorem captures_none_of_newline (re : CaptureRegex) (x : List Char)
    (hprene : re.pre ≠ []) (hpostne : re.post ≠ [])
    (hx : '\n' ∈ x)
    (hpre : ∀ i, i < (re.pre ++ (x ++ re.post)).length →
        occursAt re.pre (re.pre ++ (x ++ re.post)) i = true → i = 0)
    (hpost : ∀ k, k < (x ++ re.post).length →
        occursAt re.post (x ++ re.post) k = true → k = x.length) :
    re.captures (re.pre ++ (x ++ re.post)) = none := by
  unfold CaptureRegex.captures
  apply findCapture_none
  intro i hi
  have hi0 : i = 0 :=
    hpre i (occursAt_lt_length re.pre _ i hprene hi) hi
  subst hi0
  simp only [Nat.zero_add, List.drop_left]
  apply grasp_none
  intro k hk
  have hkx : k = x.length :=
    hpost k (occursAt_lt_length re.post _ k hpostne hk) hk
  subst hkx
  rw [List.take_left]
  exact hx


/-! ## Claims -/

/-- C1, counterexample: the claim says a successful construction never yields
an empty `titulo`, `resumo` or `texto`; but the capture wildcard `(.*)` of
`TITULO_REGEX` matches the empty string, so the document
`<h2></h2><br>R<br><br><img z><br><br><br>T<p><img` parses successfully with
`titulo = ""`. -/
theorem c1_counterexample :
    parse_html_to_lei
        (Except.ok (asciiBytes "<h2></h2><br>R<br><br><img z><br><br><br>T<p><img"))
        "f.html".toList "test".toList
      = RustOutcome.ok (Lei.mk [] "test".toList ['R'] ['T'] none) := by
  decide

/-- C1, amended: a successful construction guarantees that each of the three
mandatory patterns matched, and the record fields are exactly the cleaned
captured fragments — but a captured fragment may be empty (or clean to the
empty string), so `titulo`, `resumo`, `texto` may be empty strings. -/
theorem c1_success_shape (dest fn cat : List Char) (lei : Lei)
    (h : parse_decoded dest fn cat = RustOutcome.ok lei) :
    (TITULO_REGEX.captures dest).isSome = true
    ∧ (RESUMO_REGEX.captures dest).isSome = true
    ∧ (TEXTO_REGEX.captures dest).isSome = true
    ∧ lei.titulo = clean_html_to_text ((TITULO_REGEX.captures dest).getD [])
    ∧ lei.resumo = clean_html_to_text ((RESUMO_REGEX.captures dest).getD [])
    ∧ lei.texto = clean_html_to_text ((TEXTO_REGEX.captures dest).getD []) := by
  cases ht : TITULO_REGEX.captures dest with
  | none =>
    rw [parse_decoded_err_titulo dest fn cat ht] at h
    simp at h
  | some t =>
    cases hr : RESUMO_REGEX.captures dest with
    | none =>
      rw [parse_decoded_err_resumo dest fn cat t ht hr] at h
      simp at h
    | some r =>
      cases hx : TEXTO_REGEX.captures dest with
      | none =>
        rw [parse_decoded_err_texto dest fn cat t r ht hr hx] at h
        simp at h
      | some x =>
        rw [parse_decoded_ok_eq dest fn cat t r x ht hr hx] at h
        injection h with h2
        subst h2
        simp

/-- C1, witness for the amended claim at the counterexample document. -/
theorem c1_witness :
    (TITULO_REGEX.captures "<h2></h2><br>R<br><br><img z><br><br><br>T<p><img".toList).isSome = true
    ∧ (RESUMO_REGEX.captures "<h2></h2><br>R<br><br><img z><br><br><br>T<p><img".toList).isSome = true
    ∧ (TEXTO_REGEX.captures "<h2></h2><br>R<br><br><img z><br><br><br>T<p><img".toList).isSome = true
    ∧ (Lei.mk [] "test".toList ['R'] ['T'] none).titulo
        = clean_html_to_text ((TITULO_REGEX.captures "<h2></h2><br>R<br><br><img z><br><br><br>T<p><img".toList).getD [])
    ∧ (Lei.mk [] "test".toList ['R'] ['T'] none).resumo
        = clean_html_to_text ((RESUMO_REGEX.captures "<h2></h2><br>R<br><br><img z><br><br><br>T<p><img".toList).getD [])
    ∧ (Lei.mk [] "test".toList ['R'] ['T'] none).texto
        = clean_html_to_text ((TEXTO_REGEX.captures "<h2></h2><br>R<br><br><img z><br><br><br>T<p><img".toList).getD []) :=
  c1_success_shape "<h2></h2><br>R<br><br><img z><br><br><br>T<p><img".toList
    "f.html".toList "test".toList
    (Lei.mk [] "test".toList ['R'] ['T'] none)
    (by decide)

/-- C2, counterexample: the claim says an I/O failure is returned to the
caller as a typed result and the function never crashes; but the code calls
`File::open(..).expect(..)`, so an open failure is a panic, not an `Err`. -/
theorem c2_counterexample :
    parse_html_to_lei (Except.error IOErr.openErr) "f.html".toList "test".toList
      = RustOutcome.panic "Arquivo que estava na pasta não foi encontrado".toList := rfl

/-- C2, amended: an I/O failure (open or read) makes `parse_html_to_lei`
panic with the corresponding fixed message rather than return a typed result;
it is not retried and not silently ignored. -/
theorem c2_io_failure_panics (e : IOErr) (fn cat : List Char) :
    parse_html_to_lei (Except.error e) fn cat = RustOutcome.panic (ioPanicMsg e) := rfl

/-- C3: in a document `u ++ pre ++ x ++ post ++ y ++ post ++ v` where the
start anchor first occurs after the leading segment `u`, the closing anchor
occurs more than once afterwards on the line (once after `x`, finally after
`y`), that final occurrence is the last one in the rest of the document, and
arbitrary trailing content `v` follows, the greedy capture binds to that
last closing anchor: for each of the title, summary and body rules the
captured fragment is `x ++ post ++ y`, spanning up to the final occurrence
of the closing anchor. -/
theorem c3_greedy_last_anchor (u x y v : List Char) :
    ('\n' ∉ x → '\n' ∉ y →
      (∀ i, i < u.length → occursAt TITULO_REGEX.pre
        (u ++ (TITULO_REGEX.pre ++ (x ++ TITULO_REGEX.post ++ y ++ TITULO_REGEX.post ++ v))) i = false) →
      (∀ k, k < (x ++ TITULO_REGEX.post ++ y ++ TITULO_REGEX.post ++ v).length →
        occursAt TITULO_REGEX.post (x ++ TITULO_REGEX.post ++ y ++ TITULO_REGEX.post ++ v) k = true →
        k ≤ (x ++ TITULO_REGEX.post ++ y).length) →
      TITULO_REGEX.captures
        (u ++ (TITULO_REGEX.pre ++ (x ++ TITULO_REGEX.post ++ y ++ TITULO_REGEX.post ++ v)))
        = some (x ++ TITULO_REGEX.post ++ y))
    ∧ ('\n' ∉ x → '\n' ∉ y →
      (∀ i, i < u.length → occursAt RESUMO_REGEX.pre
        (u ++ (RESUMO_REGEX.pre ++ (x ++ RESUMO_REGEX.post ++ y ++ RESUMO_REGEX.post ++ v))) i = false) →
      (∀ k, k < (x ++ RESUMO_REGEX.post ++ y ++ RESUMO_REGEX.post ++ v).length →
        occursAt RESUMO_REGEX.post (x ++ RESUMO_REGEX.post ++ y ++ RESUMO_REGEX.post ++ v) k = true →
        k ≤ (x ++ RESUMO_REGEX.post ++ y).length) →
      RESUMO_REGEX.captures
        (u ++ (RESUMO_REGEX.pre ++ (x ++ RESUMO_REGEX.post ++ y ++ RESUMO_REGEX.post ++ v)))
        = some (x ++ RESUMO_REGEX.post ++ y))
    ∧ ('\n' ∉ x → '\n' ∉ y →
      (∀ i, i < u.length → occursAt TEXTO_REGEX.pre
        (u ++ (TEXTO_REGEX.pre ++ (x ++ TEXTO_REGEX.post ++ y ++ TEXTO_REGEX.post ++ v))) i = false) →
      (∀ k, k < (x ++ TEXTO_REGEX.post ++ y ++ TEXTO_REGEX.post ++ v).length →
        occursAt TEXTO_REGEX.post (x ++ TEXTO_REGEX.post ++ y ++ TEXTO_REGEX.post ++ v) k = true →
        k ≤ (x ++ TEXTO_REGEX.post ++ y).length) →
      TEXTO_REGEX.captures
        (u ++ (TEXTO_REGEX.pre ++ (x ++ TEXTO_REGEX.post ++ y ++ TEXTO_REGEX.post ++ v)))
        = some (x ++ TEXTO_REGEX.post ++ y)) := by
  refine ⟨?_, ?_, ?_⟩ <;>
  · intro hx hy hu hlast
    exact captures_last _ u x y v (by decide) hx hy (by decide) hu hlast

/-- C3, witness: the title rule on `<h2>A</h2>B</h2>C` followed by a further
line — the capture is `A</h2>B`, up to the last closing anchor, with content
after it — and the summary and body rules on documents of the same shape. -/
theorem c3_witness :
    TITULO_REGEX.captures
      ([] ++ (TITULO_REGEX.pre ++ ("A".toList ++ TITULO_REGEX.post ++ "B".toList ++ TITULO_REGEX.post ++ "C\nD".toList)))
      = some ("A".toList ++ TITULO_REGEX.post ++ "B".toList)
    ∧ RESUMO_REGEX.captures
      ("A ".toList ++ (RESUMO_REGEX.pre ++ ("T".toList ++ RESUMO_REGEX.post ++ "U".toList ++ RESUMO_REGEX.post ++ "C".toList)))
      = some ("T".toList ++ RESUMO_REGEX.post ++ "U".toList)
    ∧ TEXTO_REGEX.captures
      ("A ".toList ++ (TEXTO_REGEX.pre ++ ("T".toList ++ TEXTO_REGEX.post ++ "U".toList ++ TEXTO_REGEX.post ++ "C".toList)))
      = some ("T".toList ++ TEXTO_REGEX.post ++ "U".toList) := by
  refine ⟨?_, ?_, ?_⟩
  · exact (c3_greedy_last_anchor [] "A".toList "B".toList "C\nD".toList).1
      (by decide) (by decide) (by decide) (by decide)
  · exact (c3_greedy_last_anchor "A ".toList "T".toList "U".toList "C".toList).2.1
      (by decide) (by decide) (by decide) (by decide)
  · exact (c3_greedy_last_anchor "A ".toList "T".toList "U".toList "C".toList).2.2
      (by decide) (by decide) (by decide) (by decide)


/-- C4: the mandatory fields are checked in the fixed order title, summary,
body; the first missing field's named failure is returned and no record is
built; when all three match, the document-link pattern is consulted last and
the fully populated record is returned whatever that lookup yields — the
link can never cause a failure, and no partially populated record exists. -/
theorem c4_check_order :
    (∀ (bytes : List Nat) (dest fn cat : List Char),
      decodeWindows1252 bytes = some dest →
      parse_html_to_lei (Except.ok bytes) fn cat = parse_decoded dest fn cat)
    ∧ (∀ dest fn cat, TITULO_REGEX.captures dest = none →
      parse_decoded dest fn cat
        = RustOutcome.err (.capturedNotFound "Título".toList fn))
    ∧ (∀ dest fn cat t, TITULO_REGEX.captures dest = some t →
      RESUMO_REGEX.captures dest = none →
      parse_decoded dest fn cat
        = RustOutcome.err (.capturedNotFound "Resumo".toList fn))
    ∧ (∀ dest fn cat t r, TITULO_REGEX.captures dest = some t →
      RESUMO_REGEX.captures dest = some r →
      TEXTO_REGEX.captures dest = none →
      parse_decoded dest fn cat
        = RustOutcome.err (.capturedNotFound "Texto".toList fn))
    ∧ (∀ dest fn cat t r x, TITULO_REGEX.captures dest = some t →
      RESUMO_REGEX.captures dest = some r →
      TEXTO_REGEX.captures dest = some x →
      parse_decoded dest fn cat
        = RustOutcome.ok (Lei.mk (clean_html_to_text t) cat
            (clean_html_to_text r) (clean_html_to_text x)
            (DOCUMENTO_REGEX.captures dest))) := by
  refine ⟨?_, ?_, ?_, ?_, ?_⟩
  · exact fun bytes dest fn cat h => parse_html_delegates bytes dest fn cat h
  · exact fun dest fn cat h => parse_decoded_err_titulo dest fn cat h
  · exact fun dest fn cat t ht h => parse_decoded_err_resumo dest fn cat t ht h
  · exact fun dest fn cat t r ht hr h =>
      parse_decoded_err_texto dest fn cat t r ht hr h
  · exact fun dest fn cat t r x ht hr hx =>
      parse_decoded_ok_eq dest fn cat t r x ht hr hx

/-- C4, witness: each branch of the check order at a small document. -/
theorem c4_witness :
    parse_html_to_lei (Except.ok (asciiBytes "x")) "f".toList "c".toList
      = parse_decoded "x".toList "f".toList "c".toList
    ∧ parse_decoded "x".toList "f".toList "c".toList
      = RustOutcome.err (.capturedNotFound "Título".toList "f".toList)
    ∧ parse_decoded "<h2>T</h2>x".toList "f".toList "c".toList
      = RustOutcome.err (.capturedNotFound "Resumo".toList "f".toList)
    ∧ parse_decoded "<h2>T</h2><br>R<br><br><imgQ".toList "f".toList "c".toList
      = RustOutcome.err (.capturedNotFound "Texto".toList "f".toList)
    ∧ parse_decoded "<h2>T</h2><br>R<br><br><img z><br><br><br>X<p><img".toList
        "f".toList "c".toList
      = RustOutcome.ok (Lei.mk (clean_html_to_text "T".toList) "c".toList
          (clean_html_to_text "R".toList) (clean_html_to_text "X".toList)
          (DOCUMENTO_REGEX.captures
            "<h2>T</h2><br>R<br><br><img z><br><br><br>X<p><img".toList)) := by
  refine ⟨?_, ?_, ?_, ?_, ?_⟩
  · exact c4_check_order.1 (asciiBytes "x") "x".toList "f".toList "c".toList
      (by decide)
  · exact c4_check_order.2.1 "x".toList "f".toList "c".toList (by decide)
  · exact c4_check_order.2.2.1 "<h2>T</h2>x".toList "f".toList "c".toList
      "T".toList (by decide) (by decide)
  · exact c4_check_order.2.2.2.1 "<h2>T</h2><br>R<br><br><imgQ".toList
      "f".toList "c".toList "T".toList "R".toList
      (by decide) (by decide) (by decide)
  · exact c4_check_order.2.2.2.2
      "<h2>T</h2><br>R<br><br><img z><br><br><br>X<p><img".toList
      "f".toList "c".toList "T".toList "R".toList "X".toList
      (by decide) (by decide) (by decide)

/-- C5: a document with valid title, summary and body structures but no
document-link anchor parses successfully with `documento = none`; the
absence of the link is never a failure and the other fields populate. -/
theorem c5_missing_link (bytes : List Nat) (dest fn cat t r x : List Char)
    (hdec : decodeWindows1252 bytes = some dest)
    (ht : TITULO_REGEX.captures dest = some t)
    (hr : RESUMO_REGEX.captures dest = some r)
    (hx : TEXTO_REGEX.captures dest = some x)
    (hd : DOCUMENTO_REGEX.captures dest = none) :
    parse_html_to_lei (Except.ok bytes) fn cat
      = RustOutcome.ok (Lei.mk (clean_html_to_text t) cat
          (clean_html_to_text r) (clean_html_to_text x) none) := by
  rw [parse_html_delegates bytes dest fn cat hdec,
    parse_decoded_ok_eq dest fn cat t r x ht hr hx, hd]

/-- C5, witness: a full parse of a linkless document succeeds with
`documento = none`. -/
theorem c5_witness :
    parse_html_to_lei
        (Except.ok (asciiBytes "<h2>T</h2><br>R<br><br><img z><br><br><br>X<p><img"))
        "f".toList "test".toList
      = RustOutcome.ok (Lei.mk (clean_html_to_text "T".toList) "test".toList
          (clean_html_to_text "R".toList) (clean_html_to_text "X".toList) none) :=
  c5_missing_link
    (asciiBytes "<h2>T</h2><br>R<br><br><img z><br><br><br>X<p><img")
    "<h2>T</h2><br>R<br><br><img z><br><br><br>X<p><img".toList
    "f".toList "test".toList "T".toList "R".toList "X".toList
    (by decide) (by decide) (by decide) (by decide) (by decide)

/-- C6: on every well-formed fragment, the cleaner turns each line-break tag
(whatever its attributes) into exactly one newline and drops every other
tag's markup while keeping the text nested inside it, processing the
fragment in document order: cleaning the rendered fragment equals the
spec-prescribed cleaning. -/
theorem c6_cleaner_refines_spec (f : Frag) (h : wfFrag f) :
    clean_html_to_text (renderFrag f) = cleanSpecFrag f := by
  unfold clean_html_to_text
  have hmain := cleanText_render f h []
  simp only [List.append_nil, cleanText] at hmain
  exact hmain

/-- C6, witness: cleaning `Hello <br /><b>World</b>` rendered from a
fragment with text, an attributed line-break tag and a nested tag. -/
theorem c6_witness :
    clean_html_to_text (renderFrag (Frag.seq (Frag.text "Hello ".toList)
        (Frag.seq (Frag.br " /".toList)
          (Frag.tag "b".toList [] (Frag.text "World".toList)))))
      = cleanSpecFrag (Frag.seq (Frag.text "Hello ".toList)
          (Frag.seq (Frag.br " /".toList)
            (Frag.tag "b".toList [] (Frag.text "World".toList)))) :=
  c6_cleaner_refines_spec
    (Frag.seq (Frag.text "Hello ".toList)
      (Frag.seq (Frag.br " /".toList)
        (Frag.tag "b".toList [] (Frag.text "World".toList))))
    (by decide)

/-- C7: the cleaner leaves a tag-free string unchanged, and cleaning is
idempotent: a second cleaning pass changes nothing. -/
theorem c7_clean_idempotent :
    (∀ s : List Char, '<' ∉ s → clean_html_to_text s = s)
    ∧ ∀ s : List Char,
        clean_html_to_text (clean_html_to_text s) = clean_html_to_text s := by
  constructor
  · intro s h
    exact cleanText_id s h
  · intro s
    exact cleanText_id (cleanText s) (clean_no_lt s).1

/-- C7, witness: a plain string is unchanged; a marked-up string is stable
under a second cleaning. -/
theorem c7_witness :
    clean_html_to_text "plain text 123".toList = "plain text 123".toList
    ∧ clean_html_to_text (clean_html_to_text "a<b>c<br>d".toList)
      = clean_html_to_text "a<b>c<br>d".toList :=
  ⟨c7_clean_idempotent.1 "plain text 123".toList (by decide),
   c7_clean_idempotent.2 "a<b>c<br>d".toList⟩


/-- C8: decoding under the Windows-1252 single-byte table is total — every
byte value decodes to exactly one code point, hence whole-stream decoding
never fails and the UTF-8-validity panic branch after decoding can only be
reached through an I/O read failure, never through decoding itself. -/
theorem c8_decode_total :
    (∀ v : Nat, v < 256 → (decodeByteV v).isSome = true)
    ∧ (∀ b : Nat, (decodeByte b).isSome = true)
    ∧ (∀ bytes : List Nat, (decodeWindows1252 bytes).isSome = true)
    ∧ (∀ (input : Except IOErr (List Nat)) (fn cat : List Char),
        parse_html_to_lei input fn cat = RustOutcome.panic readMsg →
        input = Except.error IOErr.readErr) := by
  refine ⟨decodeByteV_total, decodeByte_total, decodeWindows1252_total, ?_⟩
  intro input fn cat h
  cases input with
  | error e =>
    cases e with
    | openErr =>
      exfalso
      have h2 : RustOutcome.panic openMsg
          = (RustOutcome.panic readMsg : RustOutcome Lei) := h
      have h3 : openMsg = readMsg := by injection h2
      exact absurd h3 (by decide)
    | readErr => rfl
  | ok bytes =>
    exfalso
    have htot := decodeWindows1252_total bytes
    cases hdec : decodeWindows1252 bytes with
    | none => rw [hdec] at htot; simp at htot
    | some dest =>
      rw [parse_html_delegates bytes dest fn cat hdec] at h
      exact parse_decoded_no_panic dest fn cat readMsg h

/-- C8, witness: byte `0x93` decodes, and at a concrete read failure the
panic with the read message indeed comes from the read error. -/
theorem c8_witness :
    (decodeByteV 147).isSome = true
    ∧ (Except.error IOErr.readErr : Except IOErr (List Nat))
        = Except.error IOErr.readErr :=
  ⟨c8_decode_total.1 147 (by decide),
   c8_decode_total.2.2.2 (Except.error IOErr.readErr) "f".toList "c".toList rfl⟩

/-- C9: a document lacking the title, summary or body anchor structure makes
extraction return the failure named after that specific field, and the
failure's message embeds exactly the file identifier that was passed to
`parse_html_to_lei`. -/
theorem c9_named_failures (bytes : List Nat) (dest fn cat : List Char)
    (hdec : decodeWindows1252 bytes = some dest) :
    (TITULO_REGEX.captures dest = none →
      parse_html_to_lei (Except.ok bytes) fn cat
        = RustOutcome.err (.capturedNotFound "Título".toList fn)
      ∧ (Error.capturedNotFound "Título".toList fn).message
        = "Título não encontrado no arquivo ".toList ++ fn)
    ∧ (∀ t, TITULO_REGEX.captures dest = some t →
      RESUMO_REGEX.captures dest = none →
      parse_html_to_lei (Except.ok bytes) fn cat
        = RustOutcome.err (.capturedNotFound "Resumo".toList fn)
      ∧ (Error.capturedNotFound "Resumo".toList fn).message
        = "Resumo não encontrado no arquivo ".toList ++ fn)
    ∧ (∀ t r, TITULO_REGEX.captures dest = some t →
      RESUMO_REGEX.captures dest = some r →
      TEXTO_REGEX.captures dest = none →
      parse_html_to_lei (Except.ok bytes) fn cat
        = RustOutcome.err (.capturedNotFound "Texto".toList fn)
      ∧ (Error.capturedNotFound "Texto".toList fn).message
        = "Texto não encontrado no arquivo ".toList ++ fn) := by
  refine ⟨?_, ?_, ?_⟩
  · intro h
    refine ⟨?_, ?_⟩
    · rw [parse_html_delegates bytes dest fn cat hdec]
      exact parse_decoded_err_titulo dest fn cat h
    · simp only [Error.message]
      rw [show "Título".toList ++ " não encontrado no arquivo ".toList
            = "Título não encontrado no arquivo ".toList from by decide]
  · intro t ht h
    refine ⟨?_, ?_⟩
    · rw [parse_html_delegates bytes dest fn cat hdec]
      exact parse_decoded_err_resumo dest fn cat t ht h
    · simp only [Error.message]
      rw [show "Resumo".toList ++ " não encontrado no arquivo ".toList
            = "Resumo não encontrado no arquivo ".toList from by decide]
  · intro t r ht hr h
    refine ⟨?_, ?_⟩
    · rw [parse_html_delegates bytes dest fn cat hdec]
      exact parse_decoded_err_texto dest fn cat t r ht hr h
    · simp only [Error.message]
      rw [show "Texto".toList ++ " não encontrado no arquivo ".toList
            = "Texto não encontrado no arquivo ".toList from by decide]

/-- C9, witness: the three named failures with the file identifier `arq`
embedded in each message. -/
theorem c9_witness :
    (parse_html_to_lei (Except.ok (asciiBytes "y")) "arq".toList "c".toList
        = RustOutcome.err (.capturedNotFound "Título".toList "arq".toList)
      ∧ (Error.capturedNotFound "Título".toList "arq".toList).message
        = "Título não encontrado no arquivo ".toList ++ "arq".toList)
    ∧ (parse_html_to_lei (Except.ok (asciiBytes "<h2>T</h2>y"))
          "arq".toList "c".toList
        = RustOutcome.err (.capturedNotFound "Resumo".toList "arq".toList)
      ∧ (Error.capturedNotFound "Resumo".toList "arq".toList).message
        = "Resumo não encontrado no arquivo ".toList ++ "arq".toList)
    ∧ (parse_html_to_lei (Except.ok (asciiBytes "<h2>T</h2><br>R<br><br><imgQ"))
          "arq".toList "c".toList
        = RustOutcome.err (.capturedNotFound "Texto".toList "arq".toList)
      ∧ (Error.capturedNotFound "Texto".toList "arq".toList).message
        = "Texto não encontrado no arquivo ".toList ++ "arq".toList) := by
  refine ⟨?_, ?_, ?_⟩
  · exact (c9_named_failures (asciiBytes "y") "y".toList "arq".toList
      "c".toList (by decide)).1 (by decide)
  · exact (c9_named_failures (asciiBytes "<h2>T</h2>y") "<h2>T</h2>y".toList
      "arq".toList "c".toList (by decide)).2.1 "T".toList
      (by decide) (by decide)
  · exact (c9_named_failures (asciiBytes "<h2>T</h2><br>R<br><br><imgQ")
      "<h2>T</h2><br>R<br><br><imgQ".toList "arq".toList "c".toList
      (by decide)).2.2 "T".toList "R".toList
      (by decide) (by decide) (by decide)

/-- C10: the capture wildcard does not match newline characters, so every
fragment any of the three mandatory rules captures lies entirely on one
line; and when a rule's only start-anchor occurrence and only closing-anchor
occurrence enclose a newline, that rule's extraction fails — for the title
this surfaces as the title-not-found failure. -/
theorem c10_single_line_capture :
    (∀ s cap, TITULO_REGEX.captures s = some cap → '\n' ∉ cap)
    ∧ (∀ s cap, RESUMO_REGEX.captures s = some cap → '\n' ∉ cap)
    ∧ (∀ s cap, TEXTO_REGEX.captures s = some cap → '\n' ∉ cap)
    ∧ (∀ (x fn cat : List Char), '\n' ∈ x →
      (∀ i, i < (TITULO_REGEX.pre ++ (x ++ TITULO_REGEX.post)).length →
        occursAt TITULO_REGEX.pre
          (TITULO_REGEX.pre ++ (x ++ TITULO_REGEX.post)) i = true → i = 0) →
      (∀ k, k < (x ++ TITULO_REGEX.post).length →
        occursAt TITULO_REGEX.post (x ++ TITULO_REGEX.post) k = true →
        k = x.length) →
      TITULO_REGEX.captures (TITULO_REGEX.pre ++ (x ++ TITULO_REGEX.post)) = none
      ∧ parse_decoded (TITULO_REGEX.pre ++ (x ++ TITULO_REGEX.post)) fn cat
        = RustOutcome.err (.capturedNotFound "Título".toList fn))
    ∧ (∀ x : List Char, '\n' ∈ x →
      (∀ i, i < (RESUMO_REGEX.pre ++ (x ++ RESUMO_REGEX.post)).length →
        occursAt RESUMO_REGEX.pre
          (RESUMO_REGEX.pre ++ (x ++ RESUMO_REGEX.post)) i = true → i = 0) →
      (∀ k, k < (x ++ RESUMO_REGEX.post).length →
        occursAt RESUMO_REGEX.post (x ++ RESUMO_REGEX.post) k = true →
        k = x.length) →
      RESUMO_REGEX.captures (RESUMO_REGEX.pre ++ (x ++ RESUMO_REGEX.post)) = none)
    ∧ (∀ x : List Char, '\n' ∈ x →
      (∀ i, i < (TEXTO_REGEX.pre ++ (x ++ TEXTO_REGEX.post)).length →
        occursAt TEXTO_REGEX.pre
          (TEXTO_REGEX.pre ++ (x ++ TEXTO_REGEX.post)) i = true → i = 0) →
      (∀ k, k < (x ++ TEXTO_REGEX.post).length →
        occursAt TEXTO_REGEX.post (x ++ TEXTO_REGEX.post) k = true →
        k = x.length) →
      TEXTO_REGEX.captures (TEXTO_REGEX.pre ++ (x ++ TEXTO_REGEX.post)) = none) := by
  refine ⟨?_, ?_, ?_, ?_, ?_, ?_⟩
  · exact fun s cap h => findCapture_no_newline TITULO_REGEX.pre TITULO_REGEX.post s cap h
  · exact fun s cap h => findCapture_no_newline RESUMO_REGEX.pre RESUMO_REGEX.post s cap h
  · exact fun s cap h => findCapture_no_newline TEXTO_REGEX.pre TEXTO_REGEX.post s cap h
  · intro x fn cat hx hpre hpost
    have hnone := captures_none_of_newline TITULO_REGEX x
      (by decide) (by decide) hx hpre hpost
    exact ⟨hnone, parse_decoded_err_titulo _ fn cat hnone⟩
  · intro x hx hpre hpost
    exact captures_none_of_newline RESUMO_REGEX x (by decide) (by decide) hx hpre hpost
  · intro x hx hpre hpost
    exact captures_none_of_newline TEXTO_REGEX x (by decide) (by decide) hx hpre hpost

/-- C10, witness: a captured title fragment has no newline, and each rule on
a document whose anchors enclose `a\nb` fails to extract; for the title the
parse returns the title-not-found failure. -/
theorem c10_witness :
    ('\n' ∉ ['A'])
    ∧ (TITULO_REGEX.captures (TITULO_REGEX.pre ++ ("a\nb".toList ++ TITULO_REGEX.post)) = none
      ∧ parse_decoded (TITULO_REGEX.pre ++ ("a\nb".toList ++ TITULO_REGEX.post))
          "f".toList "c".toList
        = RustOutcome.err (.capturedNotFound "Título".toList "f".toList))
    ∧ RESUMO_REGEX.captures (RESUMO_REGEX.pre ++ ("a\nb".toList ++ RESUMO_REGEX.post)) = none
    ∧ TEXTO_REGEX.captures (TEXTO_REGEX.pre ++ ("a\nb".toList ++ TEXTO_REGEX.post)) = none := by
  refine ⟨?_, ?_, ?_, ?_⟩
  · exact c10_single_line_capture.1 "<h2>A</h2>".toList ['A'] (by decide)
  · exact c10_single_line_capture.2.2.2.1 "a\nb".toList "f".toList "c".toList
      (by decide) (by decide) (by decide)
  · exact c10_single_line_capture.2.2.2.2.1 "a\nb".toList
      (by decide) (by decide) (by decide)
  · exact c10_single_line_capture.2.2.2.2.2 "a\nb".toList
      (by decide) (by decide) (by decide)


end LeisMunicipais
